import Mathlib

/-!
Verification of the tennisdata scraper (src/scrape_data.py) against its
natural-language specification.  Python strings are modelled as `List Char`
(`PyStr`), Python dicts as insertion-ordered association lists with
replace-in-place update (`dset`), matching CPython dict semantics.  Python's
builtin `hash` is modelled as an arbitrary function parameter, since it is a
runtime primitive, not code of the repository.
-/

namespace Tennis

/-- A Python string: its characters in order. -/
abbrev PyStr := List Char


/-- Characters of a Lean string literal, for concrete inputs. -/
def pys (x : String) : PyStr := x.data


/-- Python `str.lower()` (ASCII case mapping suffices for the data handled). -/
def lowerP (l : PyStr) : PyStr := l.map Char.toLower


/-- Python `str.split()` with no argument: split on runs of whitespace
(modelled as the space character, the only whitespace in the scraped names),
dropping empty tokens. -/
def wsplit : PyStr → List PyStr
  | [] => []
  | c :: rest =>
    if c = ' ' then wsplit rest
    else
      match rest, wsplit rest with
      | [], _ => [[c]]
      | d :: _, ws =>
        if d = ' ' then [c] :: ws
        else
          match ws with
          | [] => [[c]]
          | t :: ts => (c :: t) :: ts


/-- `' '.join parts`. -/
def joinParts (ps : List PyStr) : PyStr := List.intercalate [' '] ps


/-- The character-level part of `PlayerNameMatcher._normalize`:
`name.lower()` followed by `name.replace('.', '')` (the `.strip()` is
subsumed by the split-and-join that follows). -/
def clean (name : PyStr) : PyStr := (lowerP name).filter (fun c => c ≠ '.')


/-- `PlayerNameMatcher._normalize`: lower-case, drop periods, collapse
whitespace (`=' '.join(name.split())`). -/
def normalize (name : PyStr) : PyStr := joinParts (wsplit (clean name))

/-! ## Python dicts as insertion-ordered association lists -/


/-- `d.get(k)` / `d[k]`: first (and only) binding of the key. -/
def dget? {κ ν : Type} [DecidableEq κ] : List (κ × ν) → κ → Option ν
  | [], _ => none
  | (k0, v0) :: rest, k => if k0 = k then some v0 else dget? rest k


/-- `d[k] = v`: replace in place when the key exists, else append
(CPython dicts preserve insertion order). -/
def dset {κ ν : Type} [DecidableEq κ] : List (κ × ν) → κ → ν → List (κ × ν)
  | [], k, v => [(k, v)]
  | (k0, v0) :: rest, k, v =>
    if k0 = k then (k0, v) :: rest else (k0, v0) :: dset rest k v


/-- `d.get(k, v0)`. -/
def dgetD {κ ν : Type} [DecidableEq κ] (d : List (κ × ν)) (k : κ) (v0 : ν) : ν :=
  (dget? d k).getD v0


/-- `k in d`. -/
def dmem {κ ν : Type} [DecidableEq κ] (d : List (κ × ν)) (k : κ) : Bool :=
  (dget? d k).isSome


/-- The idiom `if k not in d: d[k] = []` followed by `d[k].append(v)`. -/
def dpush {κ ν : Type} [DecidableEq κ] (d : List (κ × List ν)) (k : κ) (v : ν) :
    List (κ × List ν) :=
  let d1 := if dmem d k then d else dset d k []
  dset d1 k (dgetD d1 k [] ++ [v])

/-! ## PlayerNameMatcher -/


/-- Result of `PlayerNameMatcher._extract_components`. -/
structure Components where
  last_name : PyStr
  first_name : PyStr
  first_initial : PyStr
  all_parts : List PyStr
deriving DecidableEq


/-- `PlayerNameMatcher._extract_components`. -/
def extract_components (name : PyStr) : Components :=
  match wsplit (clean name) with
  | [] => ⟨[], [], [], []⟩
  | [p] => ⟨p, [], [], [p]⟩
  | p0 :: p1 :: rest =>
    let parts := p0 :: p1 :: rest
    let pn := (p1 :: rest).getLastD []
    let mid := (parts.drop 1).dropLast
    if pn.length = 1 then
      { last_name := p0
        first_name := if 2 < parts.length then joinParts mid else []
        first_initial := pn
        all_parts := parts }
    else if p0.length = 1 then
      { last_name := pn
        first_name := if 2 < parts.length then joinParts mid else []
        first_initial := p0
        all_parts := parts }
    else
      { last_name := pn
        first_name := p0
        first_initial := match p0 with | c :: _ => [c] | [] => []
        all_parts := parts }


/-- State of `PlayerNameMatcher`: the five lookup structures. -/
structure Matcher where
  players : List (Int × PyStr)
  by_full_name : List (PyStr × Int)
  by_last_name : List (PyStr × List (Int × PyStr × PyStr))
  by_name_parts : List (PyStr × List (Int × PyStr))
  by_last_initial : List (PyStr × List (Int × PyStr))
deriving DecidableEq


/-- A fresh `PlayerNameMatcher()`. -/
def emptyMatcher : Matcher := ⟨[], [], [], [], []⟩


/-- The initial-scanning loop in `add_player` (lines 137-144): the first part
that is a single character, else the first character of the first other
multi-character part. -/
def scan_initial (part : PyStr) : List PyStr → PyStr
  | [] => []
  | p :: rest =>
    if p.length = 1 then p
    else if p ≠ part ∧ 1 < p.length then (match p with | c :: _ => [c] | [] => [])
    else scan_initial part rest


/-- `PlayerNameMatcher.add_player`. -/
def add_player (m : Matcher) (player_id : Int) (full_name : PyStr) : Matcher :=
  if full_name = [] then m
  else
    let normalized := normalize full_name
    let comps := extract_components full_name
    let m1 := { m with players := dset m.players player_id full_name }
    let bf := dset (dset m1.by_full_name normalized player_id)
      (normalized.filter (fun c => c ≠ ' ')) player_id
    let m2 := { m1 with by_full_name := bf }
    let np := comps.all_parts.foldl
      (fun d part => if 1 < part.length then dpush d part (player_id, full_name) else d)
      m2.by_name_parts
    let m3 := { m2 with by_name_parts := np }
    let last_name := comps.last_name
    let first_initial :=
      if comps.first_initial ≠ [] then comps.first_initial
      else match comps.first_name with | c :: _ => [c] | [] => []
    let m4 :=
      if last_name ≠ [] ∧ 1 < last_name.length then
        let bl := dpush m3.by_last_name last_name (player_id, full_name, first_initial)
        let mA := { m3 with by_last_name := bl }
        if first_initial ≠ [] then
          let bi := dpush mA.by_last_initial (last_name ++ '_' :: first_initial)
            (player_id, full_name)
          { mA with by_last_initial := bi }
        else mA
      else m3
    comps.all_parts.foldl
      (fun mm part =>
        if 1 < part.length then
          let mm1 := if dmem mm.by_last_name part then mm
                     else { mm with by_last_name := dset mm.by_last_name part [] }
          let initial := scan_initial part comps.all_parts
          let cur := dgetD mm1.by_last_name part []
          let existing := cur.map (fun e => (e.1, e.2.1))
          if (player_id, full_name) ∈ existing then mm1
          else
            let bl2 := dset mm1.by_last_name part (cur ++ [(player_id, full_name, initial)])
            { mm1 with by_last_name := bl2 }
        else mm)
      m4


/-- Stable insertion for descending-by-length sort (Python
`sorted(key=len, reverse=True)` keeps ties in original order). -/
def insertLen (x : PyStr) : List PyStr → List PyStr
  | [] => [x]
  | y :: ys => if y.length ≤ x.length then x :: y :: ys else y :: insertLen x ys


/-- `sorted(parts, key=len, reverse=True)`, stable. -/
def sortByLenDesc (l : List PyStr) : List PyStr := l.foldr insertLen []


/-- First single-character part, as in the initial-search loop of
`find_player_id` (lines 171-175). -/
def first_single_part : List PyStr → Option Char
  | [] => none
  | p :: rest =>
    if p.length = 1 then (match p with | c :: _ => some c | [] => none)
    else first_single_part rest


/-- Python `min(l, key=len)`: first element of minimal length. -/
def minByLen (l : List PyStr) : Option PyStr :=
  l.foldl
    (fun acc x => match acc with
      | none => some x
      | some mn => if x.length < mn.length then some x else acc)
    none


/-- `[(pid, fn) for pid, fn, fi in candidates if fi and fi[0] == initial]`. -/
def initial_matches (candidates : List (Int × PyStr × PyStr)) (i : Char) :
    List (Int × PyStr) :=
  (candidates.filter (fun e => e.2.2 ≠ [] ∧ e.2.2.headD ' ' = i)).map
    (fun e => (e.1, e.2.1))


/-- Strategy 2 of `find_player_id`: longest significant part indexed as a
last name, narrowed by the first initial (lines 179-199). -/
def strat2 (m : Matcher) (initial : Option Char) : List PyStr → Option Int
  | [] => none
  | part :: rest =>
    if part.length < 3 then strat2 m initial rest
    else
      match dget? m.by_last_name part with
      | none => strat2 m initial rest
      | some candidates =>
        match initial with
        | some i =>
          match initial_matches candidates i with
          | [mu] => some mu.1
          | mu :: mv :: mrest =>
            match (mu :: mv :: mrest).filter (fun e => 0 < e.1) with
            | pu :: _ => some pu.1
            | [] => some mu.1
          | [] =>
            match candidates with
            | [cu] => some cu.1
            | _ => strat2 m initial rest
        | none =>
          match candidates with
          | [cu] => some cu.1
          | _ => strat2 m initial rest


/-- Strategy 3 of `find_player_id`: the `lastname_initial` combined key
(lines 201-216).  When the key is present every code path returns. -/
def strat3 (m : Matcher) (comps : Components) (initial : Option Char) : Option Int :=
  let last_name := comps.last_name
  let fi := if comps.first_initial ≠ [] then comps.first_initial
            else match initial with | some c => [c] | none => []
  if last_name ≠ [] ∧ 3 ≤ last_name.length ∧ fi ≠ [] then
    match dget? m.by_last_initial (last_name ++ '_' :: fi) with
    | some candidates =>
      match candidates with
      | [cu] => some cu.1
      | _ =>
        match candidates.filter (fun e => 0 < e.1) with
        | pu :: _ => some pu.1
        | [] => (match candidates with | cu :: _ => some cu.1 | [] => none)
    | none => none
  else none


/-- Does `b` start with `a`? -/
def startsWithP : PyStr → PyStr → Bool
  | [], _ => true
  | _ :: _, [] => false
  | a :: as, b :: bs => a = b && startsWithP as bs


/-- Python `a in b` for strings: contiguous-substring test. -/
def substringP (a : PyStr) : PyStr → Bool
  | [] => decide (a = [])
  | c :: bs => startsWithP a (c :: bs) || substringP a bs


/-- Per-player score of strategy 4's fuzzy match (lines 225-236): `some score`
when every long query part matches a part of the candidate. -/
def strat4_score (long_parts : List PyStr) (pid : Int) (full_name : PyStr) :
    Option Nat :=
  let fn_parts := wsplit (normalize full_name)
  let hits := (long_parts.filter (fun sp =>
      fn_parts.any (fun fp => sp = fp ∨ substringP sp fp ∨ substringP fp sp))).length
  if hits = long_parts.length then
    some (hits * 10 + (if 0 < pid then 1 else 0))
  else none


/-- Strategy 4 of `find_player_id`: fuzzy scan over all players (lines
218-239).  `if best_match:` makes a best match of id 0 fall through. -/
def strat4 (m : Matcher) (significant : List PyStr) : Option Int :=
  if 2 ≤ significant.length then
    let long_parts := significant.filter (fun p => 3 ≤ p.length)
    if 2 ≤ long_parts.length then
      let best := m.players.foldl
        (fun (best : Option Int × Nat) e =>
          match strat4_score long_parts e.1 e.2 with
          | some score => if best.2 < score then (some e.1, score) else best
          | none => best)
        (none, 0)
      match best.1 with
      | some pid => if pid ≠ 0 then some pid else none
      | none => none
    else none
  else none


/-- Strategy 5 of `find_player_id`: a single significant part plus a known
initial (lines 241-254). -/
def strat5 (m : Matcher) (initial : Option Char) (significant : List PyStr) :
    Option Int :=
  match significant, initial with
  | [part], some i =>
    if 3 ≤ part.length then
      match dget? m.by_last_name part with
      | some candidates =>
        match initial_matches candidates i with
        | [mu] => some mu.1
        | mu :: mv :: mrest =>
          match (mu :: mv :: mrest).filter (fun e => 0 < e.1) with
          | pu :: _ => some pu.1
          | [] => some mu.1
        | [] => none
      | none => none
    else none
  | _, _ => none


/-- `PlayerNameMatcher.find_player_id`. -/
def find_player_id (m : Matcher) (name : PyStr) : Option Int :=
  if name = [] then none
  else
    let normalized := normalize name
    let comps := extract_components name
    match dget? m.by_full_name normalized with
    | some pid => some pid
    | none =>
    match dget? m.by_full_name (normalized.filter (fun c => c ≠ ' ')) with
    | some pid => some pid
    | none =>
      let significant := sortByLenDesc (comps.all_parts.filter (fun p => 1 < p.length))
      let initial : Option Char :=
        match first_single_part comps.all_parts with
        | some c => some c
        | none =>
          if 2 ≤ significant.length then
            match minByLen significant with
            | some mn => (match mn with | c :: _ => some c | [] => none)
            | none => none
          else none
      match strat2 m initial significant with
      | some pid => some pid
      | none =>
      match strat3 m comps initial with
      | some pid => some pid
      | none =>
      match strat4 m significant with
      | some pid => some pid
      | none => strat5 m initial significant

/-! ## Player-id generation (lines 636-639 and 1084-1087) -/

/-- The two tours; Tennis Explorer's ATP and WTA circuits. -/
inductive Tour | ATP | WTA
deriving DecidableEq


/-- Python `a % m` for positive `m`: the representative in `[0, m)`. -/
def pyMod (a m : Int) : Int := a.emod m


/-- `player_id = hash(slug) % (10**9); if tour == 'WTA': player_id =
-abs(player_id)`.  The same computation appears in `fetch_player_matches`
(lines 636-639), in the opponent fallback (lines 769-780) and in
`_scrape_single_player` (lines 1084-1087); the hash value is a parameter
because Python's builtin `hash` is a runtime primitive. -/
def generate_player_id (hashVal : Int) (tour : Tour) : Int :=
  let pid := pyMod hashVal (10 ^ 9)
  if tour = Tour.WTA then -(pid.natAbs : Int) else pid

/-! ## Calendar dates (Python datetime, at day granularity) -/


/-- A calendar date, the content of a `YYYY-MM-DD` string. -/
structure Date where
  year : Nat
  month : Nat
  day : Nat
deriving DecidableEq


/-- Gregorian leap year. -/
def isLeap (y : Nat) : Bool := y % 4 = 0 && (y % 100 ≠ 0 || y % 400 = 0)


/-- Days in a month (0 for an invalid month). -/
def daysInMonth (y m : Nat) : Nat :=
  if m = 1 then 31 else if m = 2 then (if isLeap y then 29 else 28)
  else if m = 3 then 31 else if m = 4 then 30 else if m = 5 then 31
  else if m = 6 then 30 else if m = 7 then 31 else if m = 8 then 31
  else if m = 9 then 30 else if m = 10 then 31 else if m = 11 then 30
  else if m = 12 then 31 else 0


/-- Does `datetime.strptime(f"{y}-{m:02d}-{d:02d}", '%Y-%m-%d')` succeed?
(datetime years run 1..9999.) -/
def isValidDate (y m d : Nat) : Bool :=
  1 ≤ y && y ≤ 9999 && 1 ≤ m && m ≤ 12 && 1 ≤ d && d ≤ daysInMonth y m


/-- Days in the years before year `y` (proleptic Gregorian). -/
def daysBeforeYear (y : Nat) : Nat :=
  365 * (y - 1) + (y - 1) / 4 - (y - 1) / 100 + (y - 1) / 400


/-- Days in the months of year `y` before month `m`. -/
def daysBeforeMonth (y m : Nat) : Nat :=
  (List.range (m - 1)).foldl (fun acc i => acc + daysInMonth y (i + 1)) 0


/-- Rata-die ordinal of a date; differences of ordinals are exactly
`(a - b).days` for midnight datetimes. -/
def toOrdinal (dt : Date) : Int :=
  ((daysBeforeYear dt.year + daysBeforeMonth dt.year dt.month + dt.day : Nat) : Int)


/-- Strict date order (lexicographic; equals datetime order for valid dates). -/
def dateLt (a b : Date) : Bool :=
  a.year < b.year ||
    (a.year = b.year && (a.month < b.month || (a.month = b.month && a.day < b.day)))


/-- Non-strict date order. -/
def dateLe (a b : Date) : Bool := dateLt a b || a = b


/-- The smart year detection of `fetch_player_matches` (lines 691-731):
resolve a `(day, month)` token under the tournament-header year
`current_year`, relative to `today`.  Each point where
`datetime.strptime` would raise `ValueError` (an invalid candidate)
returns whatever `match_date` holds at that point, as the
`except ValueError: pass` does.  Note that `today = datetime.now()` carries
a time of day at or after midnight, so `match_dt > today` is the strict
date order and `(today - match_dt).days` is the ordinal difference. -/
def resolve_match_date (current_year month day : Nat) (today : Date) : Date :=
  let orig : Date := ⟨current_year, month, day⟩
  if ¬ isValidDate current_year month day then orig
  else
    let days_ago : Int := toOrdinal today - toOrdinal orig
    if dateLt today orig then
      let d2 : Date := ⟨today.year, month, day⟩
      if ¬ isValidDate today.year month day then d2
      else if dateLt today d2 then ⟨today.year - 1, month, day⟩ else d2
    else if current_year = today.year - 1 ∧ month ≤ today.month then
      let cur : Date := ⟨today.year, month, day⟩
      if ¬ isValidDate today.year month day then orig
      else
        let cur_days_ago : Int := toOrdinal today - toOrdinal cur
        if 0 ≤ cur_days_ago ∧ cur_days_ago ≤ 30 ∧ 300 < days_ago then cur else orig
    else if 350 < days_ago then
      let newer : Date := ⟨current_year + 1, month, day⟩
      if ¬ isValidDate (current_year + 1) month day then orig
      else if dateLe newer today then newer else orig
    else orig

/-! ## Scrape cache (TTL policy and fail-open load) -/


/-- `TennisDataScraper.CACHE_TTL_DAYS`. -/
def CACHE_TTL_DAYS : Int := 7


/-- `TennisDataScraper._should_scrape_player`.  The cache maps a lower-cased
name to its last-scraped timestamp; timestamps are in seconds, and
`(datetime.now() - last_scraped).days` floors the difference. -/
def should_scrape_player (cache : List (PyStr × Int)) (now : Int)
    (player_name : PyStr) (is_priority : Bool) : Bool :=
  if is_priority then true
  else
    let cache_key := lowerP player_name
    match dget? cache cache_key with
    | some last_scraped =>
      let age_days : Int := Int.fdiv (now - last_scraped) 86400
      if age_days < CACHE_TTL_DAYS then false else true
    | none => true

/-- The observable states of the persisted cache file: missing, present but
not JSON-parseable, or parseable to a cache dictionary. -/
inductive CacheFile where
  | absent
  | corrupt
  | valid (d : List (PyStr × Int))
deriving DecidableEq


/-- `open` plus `json.load` on the cache file, before any handler: raises
(`.error`) when the file is absent or unparseable. -/
def read_and_parse : CacheFile → Except Unit (List (PyStr × Int))
  | .absent => .error ()
  | .corrupt => .error ()
  | .valid d => .ok d


/-- `TennisDataScraper._load_scrape_cache`: the `exists()` guard skips the
read when the file is absent, and the bare `except Exception` turns any
read/parse failure into the empty dictionary.  The `Except` codomain shows
an uncaught exception would surface as `.error`. -/
def load_scrape_cache (f : CacheFile) : Except Unit (List (PyStr × Int)) :=
  match f with
  | .absent => .ok []
  | g =>
    match read_and_parse g with
    | .ok d => .ok d
    | .error _ => .ok []

/-! ## fetch_player_matches (lines 624-819) -/


/-- Decimal digits of a natural number. -/
def natDigits (n : Nat) : PyStr := (toString n).data


/-- `str(n).zfill(2)` for the parsed one-or-two-digit tokens. -/
def pad2 (n : Nat) : PyStr := if n < 10 then '0' :: natDigits n else natDigits n


/-- `f"{year}-{month.zfill(2)}-{day.zfill(2)}"`. -/
def dateStr (d : Date) : PyStr :=
  natDigits d.year ++ '-' :: (pad2 d.month ++ '-' :: pad2 d.day)


/-- Python string `<`: lexicographic on code points. -/
def pyStrLt : PyStr → PyStr → Bool
  | [], [] => false
  | [], _ :: _ => true
  | _ :: _, [] => false
  | a :: as, b :: bs => if a = b then pyStrLt as bs else decide (a < b)


/-- `l.takeWhile isDigit` and the rest. -/
def spanDigits (l : PyStr) : PyStr × PyStr :=
  (l.takeWhile Char.isDigit, l.dropWhile Char.isDigit)


/-- Numeric value of a digit string. -/
def digitsToNat (l : PyStr) : Nat := l.foldl (fun acc c => acc * 10 + (c.toNat - 48)) 0


/-- The date-cell pattern (line 683): anchored match of one-or-two digits,
a period, one-or-two digits, a period; yields `(day, month)`. -/
def parse_day_month (l : PyStr) : Option (Nat × Nat) :=
  let ds := (spanDigits l).1
  let r1 := (spanDigits l).2
  if ds.length = 0 ∨ 2 < ds.length then none
  else
    match r1 with
    | '.' :: r2 =>
      let ms := (spanDigits r2).1
      let r3 := (spanDigits r2).2
      if ms.length = 0 ∨ 2 < ms.length then none
      else
        match r3 with
        | ['.'] => some (digitsToNat ds, digitsToNat ms)
        | _ => none
    | _ => none


/-- Search for a slash, four digits, slash (line 665): first such year. -/
def find_year_in : PyStr → Option Nat
  | '/' :: a :: b :: c :: d :: '/' :: rest =>
    if a.isDigit && b.isDigit && c.isDigit && d.isDigit then
      some (digitsToNat [a, b, c, d])
    else find_year_in (a :: b :: c :: d :: '/' :: rest)
  | _ :: rest => find_year_in rest
  | [] => none


/-- Try the tournament pattern (line 670) at the head position:
slash, a nonempty run without slashes, slash, four digits, slash. -/
def tourn_pat (l : PyStr) : Option PyStr :=
  match l with
  | '/' :: rest =>
    let grp := rest.takeWhile (fun c => c ≠ '/')
    let rem := rest.dropWhile (fun c => c ≠ '/')
    if grp = [] then none
    else
      match rem with
      | '/' :: a :: b :: c :: d :: '/' :: _ =>
        if a.isDigit && b.isDigit && c.isDigit && d.isDigit then some grp else none
      | _ => none
  | _ => none


/-- Search for the tournament pattern left to right: the captured group. -/
def find_tournament_in : PyStr → Option PyStr
  | [] => none
  | c :: rest =>
    match tourn_pat (c :: rest) with
    | some g => some g
    | none => find_tournament_in rest


/-- Python `str.title()`: upper-case a letter that follows a non-letter,
lower-case the other letters. -/
def pyTitle (l : PyStr) : PyStr :=
  ((l.foldl
    (fun (acc : PyStr × Bool) c =>
      ((if c.isAlpha then (if acc.2 then Char.toLower c else Char.toUpper c) else c)
          :: acc.1,
        c.isAlpha))
    ([], false)).1).reverse


/-- `TennisDataScraper._guess_surface`: clay keywords. -/
def clay_keywords : List PyStr :=
  [pys "roland garros", pys "french open", pys "rome", pys "madrid",
   pys "barcelona", pys "monte carlo", pys "buenos aires", pys "rio",
   pys "hamburg", pys "clay", pys "estoril", pys "geneva", pys "lyon",
   pys "kitzbuhel", pys "gstaad", pys "bastad", pys "umag", pys "marrakech",
   pys "houston", pys "bucharest", pys "palermo"]


/-- `TennisDataScraper._guess_surface`: grass keywords (the apostrophe of
the sixth entry is written by code point). -/
def grass_keywords : List PyStr :=
  [pys "wimbledon", pys "queens", pys "queen" ++ Char.ofNat 39 :: pys "s",
   pys "halle", pys "eastbourne", pys "grass", pys "s-hertogenbosch",
   pys "stuttgart", pys "mallorca", pys "newport", pys "berlin"]


/-- `TennisDataScraper._guess_surface`. -/
def guess_surface (tournament_name : PyStr) : PyStr :=
  let nm := lowerP tournament_name
  if clay_keywords.any (fun k => substringP k nm) then pys "Clay"
  else if grass_keywords.any (fun k => substringP k nm) then pys "Grass"
  else pys "Hard"


/-- Python `s.strip()` on the participant names (space characters). -/
def stripP (l : PyStr) : PyStr :=
  ((l.dropWhile (fun c => c = ' ')).reverse.dropWhile (fun c => c = ' ')).reverse


/-- Python `s.split(sep)` for a one-character separator (keeps empties). -/
def splitOnC (sep : Char) : PyStr → List PyStr
  | [] => [[]]
  | c :: rest =>
    if c = sep then [] :: splitOnC sep rest
    else
      match splitOnC sep rest with
      | t :: ts => (c :: t) :: ts
      | [] => [[c]]


/-- `re.search(r'/player/([^/]+)', href)`: the slug after the first
`/player/` that is followed by at least one non-slash character. -/
def extract_slug : PyStr → Option PyStr
  | '/' :: 'p' :: 'l' :: 'a' :: 'y' :: 'e' :: 'r' :: '/' :: rest =>
    let s0 := rest.takeWhile (fun c => c ≠ '/')
    if s0 = [] then extract_slug ('p' :: 'l' :: 'a' :: 'y' :: 'e' :: 'r' :: '/' :: rest)
    else some s0
  | _ :: rest => extract_slug rest
  | [] => none


/-- `player_name.split()[-1].lower() if player_name else ""` (line 642). -/
def player_last_name (player_name : PyStr) : PyStr :=
  if player_name = [] then []
  else lowerP ((wsplit player_name).getLastD [])


/-- The anchor link found inside a `td.year` cell. -/
structure YearLink where
  href : PyStr
  text : PyStr
deriving DecidableEq


/-- One `tr` of a result table, as the BeautifulSoup selectors of lines
653-788 observe it: each field is the stripped text of the matched cell,
`none` when the selector matches nothing.  `yearCell = some none` is a
`td.year` cell holding no anchor. -/
structure Row where
  yearCell : Option (Option YearLink)
  dateText : Option PyStr
  nameText : Option PyStr
  oppHref : Option PyStr
  scoreText : Option PyStr
  roundText : Option PyStr
deriving DecidableEq


/-- The match dictionary appended at lines 799-811. -/
structure MatchRec where
  id : PyStr
  date : PyStr
  tournament : PyStr
  surface : PyStr
  round : PyStr
  winner_id : Int
  winner_name : PyStr
  loser_id : Int
  loser_name : PyStr
  score : PyStr
  tour : Tour
deriving DecidableEq


/-- Loop state of the row scan: collected matches, the running tournament
header values, and whether the early `return matches` has fired. -/
structure ScanState where
  matchList : List MatchRec
  tournament : PyStr
  surface : PyStr
  year : Nat
  done : Bool
deriving DecidableEq


/-- The per-call inputs of `fetch_player_matches`; `pyHash` stands for
Python's builtin `hash` on strings. -/
structure FetchCfg where
  pyHash : PyStr → Int
  matcher : Matcher
  slug : PyStr
  player_name : PyStr
  tour : Tour
  today : Date
  max_matches : Nat
  cutoff_date : Option PyStr


/-- `f"TE_{match_date}_{abs(winner_id)}_{abs(loser_id)}"` (line 797). -/
def mk_match_id (date : PyStr) (winner_id loser_id : Int) : PyStr :=
  pys "TE_" ++ date ++ '_' :: (natDigits winner_id.natAbs ++ '_' :: natDigits loser_id.natAbs)


/-- Opponent identity (lines 767-780): the name matcher first, then the
hash of the linked slug, then the hash of the displayed name; the hash
fallback forces the WTA sign exactly as for the subject. -/
def opponent_resolve (cfg : FetchCfg) (opponent_name : PyStr)
    (oppHref : Option PyStr) : Int :=
  match find_player_id cfg.matcher opponent_name with
  | some i => i
  | none =>
    let h := match oppHref with
      | some href =>
        match extract_slug href with
        | some oslug => cfg.pyHash oslug
        | none => cfg.pyHash opponent_name
      | none => cfg.pyHash opponent_name
    generate_player_id h cfg.tour


/-- Lines 755-811: from the two participant strings of a match row, derive
winner and loser (the subject wins when its last name occurs in the first
participant, line 760), resolve the opponent, and build the appended match
dictionary. -/
def build_row_match (cfg : FetchCfg) (tournament surface : PyStr)
    (match_date : PyStr) (p1 p2 : PyStr)
    (oppHref scoreText roundText : Option PyStr) : MatchRec :=
  let player1_name := stripP p1
  let player2_name := stripP p2
  let is_win := substringP (player_last_name cfg.player_name) (lowerP player1_name)
  let opponent_name := if is_win then player2_name else player1_name
  let opponent_id := opponent_resolve cfg opponent_name oppHref
  let score_text := match scoreText with | some sc => sc | none => []
  let round_text := match roundText with | some r => r | none => []
  let pid := generate_player_id (cfg.pyHash cfg.slug) cfg.tour
  let winner_id := if is_win then pid else opponent_id
  let winner_name := if is_win then cfg.player_name else opponent_name
  let loser_id := if is_win then opponent_id else pid
  let loser_name := if is_win then opponent_name else cfg.player_name
  { id := mk_match_id match_date winner_id loser_id
    date := match_date
    tournament := tournament
    surface := surface
    round := round_text
    winner_id := winner_id
    winner_name := winner_name
    loser_id := loser_id
    loser_name := loser_name
    score := score_text
    tour := cfg.tour }


/-- The body of the row loop of `fetch_player_matches` (lines 652-817):
header rows update the running year/tournament/surface and continue; match
rows are parsed, dated, filtered against the cutoff, split into the two
participants, assigned winner and loser by whether the subject's last name
occurs in the first participant, and appended, stopping at `max_matches`. -/
def process_row (cfg : FetchCfg) (st : ScanState) (row : Row) : ScanState :=
  if st.done then st
  else
    match row.yearCell with
    | some linkOpt =>
      match linkOpt with
      | none => st
      | some link =>
        let y := match find_year_in link.href with
          | some yr => yr
          | none => st.year
        let t := match find_tournament_in link.href with
          | some g => pyTitle (g.map (fun c => if c = '-' then ' ' else c))
          | none => st.tournament
        { st with year := y, tournament := t, surface := guess_surface t }
    | none =>
      match row.dateText with
      | none => st
      | some dtext =>
        match parse_day_month dtext with
        | none => st
        | some dm =>
          let mdate := resolve_match_date st.year dm.2 dm.1 cfg.today
          let match_date := dateStr mdate
          if (match cfg.cutoff_date with
              | some cut => pyStrLt match_date cut
              | none => false) then st
          else
            match row.nameText with
            | none => st
            | some ntext =>
              if '/' ∈ ntext then st
              else if '-' ∉ ntext then st
              else
                match splitOnC '-' ntext with
                | [p1, p2] =>
                  let m := build_row_match cfg st.tournament st.surface match_date
                    p1 p2 row.oppHref row.scoreText row.roundText
                  let ms := st.matchList ++ [m]
                  if cfg.max_matches ≤ ms.length then
                    { st with matchList := ms, done := true }
                  else { st with matchList := ms }
                | _ => st


/-- `TennisDataScraper.fetch_player_matches`, from the parsed result tables
on: the initial state is line 645-647 (tournament "", surface "Hard", year
= today's year), the nested loops carry the state across tables, and the
early return at line 813-814 is the `done` flag. -/
def fetch_player_matches (cfg : FetchCfg) (tables : List (List Row)) : List MatchRec :=
  let init : ScanState := ⟨[], [], pys "Hard", cfg.today.year, false⟩
  (tables.foldl (fun st rows => rows.foldl (process_row cfg) st) init).matchList

/-! ## Structure of one step of the row loop -/


/-- The cap invariant of the row scan: never more than `max_matches`
collected, and strictly fewer while the scan is still running. -/
def capInv (maxM : Nat) (st : ScanState) : Prop :=
  st.matchList.length ≤ maxM ∧ (st.done = false → st.matchList.length < maxM)


/-- All collected records carry the deterministic id shape. -/
def idInv (st : ScanState) : Prop :=
  ∀ m ∈ st.matchList, m.id = mk_match_id m.date m.winner_id m.loser_id


/-- Two players that share the last name and the first initial; Anna (id 1)
is registered before Abby (id 2). -/
def smithIdx : Matcher :=
  add_player (add_player emptyMatcher 1 (pys "Anna Smith")) 2 (pys "Abby Smith")


/-- The same two players registered in the opposite order. -/
def smithIdxRev : Matcher :=
  add_player (add_player emptyMatcher 2 (pys "Abby Smith")) 1 (pys "Anna Smith")


/-- The same two players with negative (circuit B) identifiers. -/
def smithIdxNeg : Matcher :=
  add_player (add_player emptyMatcher (-1) (pys "Anna Smith")) (-2) (pys "Abby Smith")


/-- First player negative, second positive. -/
def smithIdxMix : Matcher :=
  add_player (add_player emptyMatcher (-1) (pys "Anna Smith")) 2 (pys "Abby Smith")


/-- One player registered twice with the identical id and canonical name. -/
def dupM : Matcher :=
  add_player (add_player emptyMatcher 5 (pys "Ana Grubor")) 5 (pys "Ana Grubor")


/-- A tournament-header row announcing the 2025 Australian Open. -/
def hdrRow : Row :=
  { yearCell := some (some ⟨pys "/aus-open/2025/", pys "Aus Open 2025"⟩),
    dateText := none, nameText := none, oppHref := none,
    scoreText := none, roundText := none }


/-- A match row dated January 1, subject listed first (the winner slot). -/
def janRow : Row :=
  { yearCell := none, dateText := some (pys "1.1."),
    nameText := some (pys "Subject S.-Opponent O."),
    oppHref := none, scoreText := some (pys "4-6, 4-6"),
    roundText := some (pys "F") }


/-- A scrape of the subject `subj` on December 31, 2024, with a concrete
stand-in for Python's string hash. -/
def cfgA : FetchCfg :=
  { pyHash := (fun l => if l = pys "subj" then 7 else 9),
    matcher := emptyMatcher, slug := pys "subj",
    player_name := pys "Sam Subject", tour := Tour.ATP,
    today := ⟨2024, 12, 31⟩, max_matches := 30, cutoff_date := none }


/-- The same scrape repeated on January 2, 2025. -/
def cfgB : FetchCfg := { cfgA with today := ⟨2025, 1, 2⟩ }

/-! ## C10: the match cap of fetch_player_matches -/


/-- The one concrete record `fetch_player_matches cfgA [[hdrRow, janRow]]`
produces (used by witnesses). -/
def recA : MatchRec :=
  { id := pys "TE_2024-01-01_7_9", date := pys "2024-01-01",
    tournament := pys "Aus Open", surface := pys "Hard", round := pys "F",
    winner_id := 7, winner_name := pys "Sam Subject",
    loser_id := 9, loser_name := pys "Opponent O.",
    score := pys "4-6, 4-6", tour := Tour.ATP }


/-- Maximal runs of digits in a string, as numbers (the "parsed numeric
score tokens" the claim speaks of). -/
def numeric_tokens (l : PyStr) : List Nat :=
  let r := l.foldl
    (fun (acc : List Nat × Option Nat) c =>
      if c.isDigit then (acc.1, some ((acc.2.getD 0) * 10 + (c.toNat - 48)))
      else match acc.2 with
        | some n => (acc.1 ++ [n], none)
        | none => (acc.1, none))
    ([], none)
  match r.2 with
  | some n => r.1 ++ [n]
  | none => r.1


/-- The claim's fallback rule, written from the specification's words for
comparison with the code (the code never consults score tokens): with no
explicit win/lose signal, the first-listed side is the winner exactly when
its first parsed numeric score token is strictly greater than the other
side's. -/
def spec_winner_first_token : List Nat → Option Bool
  | a :: b :: _ => some (decide (b < a))
  | _ => none


/-- A scrape of Novak Djokovic with a concrete stand-in hash. -/
def c7cfg : FetchCfg :=
  { pyHash := (fun l => if l = pys "novak-djokovic" then 100 else 200),
    matcher := emptyMatcher, slug := pys "novak-djokovic",
    player_name := pys "Novak Djokovic", tour := Tour.ATP,
    today := ⟨2025, 6, 1⟩, max_matches := 30, cutoff_date := none }


/-- A row whose score tokens say the first side lost (4 against 6). -/
def c7row : Row :=
  { yearCell := none, dateText := some (pys "1.1."),
    nameText := some (pys "Djokovic N.-Nadal R."), oppHref := none,
    scoreText := some (pys "4-6, 4-6"), roundText := none }


/-- A record with its score blanked: what remains must not depend on the
score cell. -/
def eraseScore (m : MatchRec) : MatchRec := { m with score := [] }


/-- Two scan states that agree on everything except the stored score
strings. -/
def stRel (s1 s2 : ScanState) : Prop :=
  s1.matchList.map eraseScore = s2.matchList.map eraseScore ∧
  s1.tournament = s2.tournament ∧ s1.surface = s2.surface ∧
  s1.year = s2.year ∧ s1.done = s2.done


/-- Two rows equal except for the text of the score cell. -/
def rowsRES : List Row → List Row → Bool
  | [], [] => true
  | r1 :: t1, r2 :: t2 =>
    decide (r1 = { r2 with scoreText := r1.scoreText }) && rowsRES t1 t2
  | _, _ => false


/-- Tables pointwise equal except for score cells. -/
def tablesRES : List (List Row) → List (List Row) → Bool
  | [], [] => true
  | a :: t1, b :: t2 => rowsRES a b && tablesRES t1 t2
  | _, _ => false


/-- The January row with a different score text. -/
def janRow2 : Row := { janRow with scoreText := some (pys "6-0, 6-0") }


def keysNodup {κ ν : Type} [DecidableEq κ] (d : List (κ × ν)) : Prop :=
  (d.map Prod.fst).Nodup


/-- Registering a list of `(id, canonicalName)` pairs in order. -/
def addAll (ops : List (Int × PyStr)) : Matcher :=
  ops.foldl (fun mm e => add_player mm e.1 e.2) emptyMatcher


/-- A well-formed (already normalized) name part: nonempty, lower-case, no
spaces, no periods. -/
def WFpart (w : PyStr) : Prop :=
  w ≠ [] ∧ ∀ c ∈ w, Char.toLower c = c ∧ c ≠ ' ' ∧ c ≠ '.'


instance (w : PyStr) : Decidable (WFpart w) := by
  unfold WFpart
  infer_instance


def kottIdx : Matcher :=
  add_player (add_player emptyMatcher 1 (pys "anna kott")) 2 (pys "aida kott")


lemma build_row_match_id (cfg : FetchCfg) (t s md p1 p2 : PyStr)
    (oh sc rt : Option PyStr) :
    (build_row_match cfg t s md p1 p2 oh sc rt).id =
      mk_match_id (build_row_match cfg t s md p1 p2 oh sc rt).date
        (build_row_match cfg t s md p1 p2 oh sc rt).winner_id
        (build_row_match cfg t s md p1 p2 oh sc rt).loser_id := rfl


/-- Each row either leaves the collected matches and the done flag alone, or
(when not yet done) appends exactly one record whose id is
`TE_<date>_<abs winner>_<abs loser>`, setting the done flag exactly when the
cap is reached. -/
lemma process_row_shape (cfg : FetchCfg) (st : ScanState) (r : Row) :
    ((process_row cfg st r).matchList = st.matchList ∧
     (process_row cfg st r).done = st.done) ∨
    (st.done = false ∧ ∃ m : MatchRec,
      (process_row cfg st r).matchList = st.matchList ++ [m] ∧
      m.id = mk_match_id m.date m.winner_id m.loser_id ∧
      ((process_row cfg st r).done = true ↔
        cfg.max_matches ≤ st.matchList.length + 1)) := by
  by_cases hd : st.done = true
  · left; simp [process_row, hd]
  · have hdf : st.done = false := by
      cases hb : st.done
      · rfl
      · exact absurd hb hd
    rcases hyc : r.yearCell with _ | lo
    · rcases hdt : r.dateText with _ | dtext
      · left; simp [process_row, hd, hyc, hdt]
      · rcases hpm : parse_day_month dtext with _ | dm
        · left; simp [process_row, hd, hyc, hdt, hpm]
        · rcases hco : cfg.cutoff_date with _ | cut
          · rcases hnt : r.nameText with _ | ntext
            · left; simp [process_row, hd, hyc, hdt, hpm, hco, hnt]
            · by_cases hsl : '/' ∈ ntext
              · left; simp [process_row, hd, hyc, hdt, hpm, hco, hnt, hsl]
              · by_cases hda : '-' ∈ ntext
                · rcases hsp : splitOnC '-' ntext with _ | ⟨p1, tl⟩
                  · left; simp [process_row, hd, hyc, hdt, hpm, hco, hnt, hsl, hda, hsp]
                  · rcases tl with _ | ⟨p2, tl2⟩
                    · left; simp [process_row, hd, hyc, hdt, hpm, hco, hnt, hsl, hda, hsp]
                    · rcases tl2 with _ | ⟨p3, tl3⟩
                      · right
                        refine ⟨hdf,
                          build_row_match cfg st.tournament st.surface
                            (dateStr (resolve_match_date st.year dm.2 dm.1 cfg.today))
                            p1 p2 r.oppHref r.scoreText r.roundText,
                          ?_, build_row_match_id cfg _ _ _ _ _ _ _ _, ?_⟩
                        · simp only [process_row, hdf, Bool.false_eq_true, if_false,
                            hyc, hdt, hpm, hco, hnt, hsp]
                          rw [if_neg hsl, if_neg (fun hcon : ¬ _ => hcon hda)]
                          simp only [apply_ite ScanState.matchList, ite_self]
                        · simp only [process_row, hdf, Bool.false_eq_true, if_false,
                            hyc, hdt, hpm, hco, hnt, hsp]
                          rw [if_neg hsl, if_neg (fun hcon : ¬ _ => hcon hda)]
                          simp only [apply_ite ScanState.done, List.length_append,
                            List.length_cons, List.length_nil]
                          by_cases hc : cfg.max_matches ≤ st.matchList.length + 1 <;>
                            simp [hc, hdf]
                      · left
                        simp [process_row, hd, hyc, hdt, hpm, hco, hnt, hsl, hda, hsp]
                · left; simp [process_row, hd, hyc, hdt, hpm, hco, hnt, hsl, hda]
          · by_cases hcut :
                pyStrLt (dateStr (resolve_match_date st.year dm.2 dm.1 cfg.today)) cut = true
            · left; simp [process_row, hd, hyc, hdt, hpm, hco, hcut]
            · rcases hnt : r.nameText with _ | ntext
              · left; simp [process_row, hd, hyc, hdt, hpm, hco, hcut, hnt]
              · by_cases hsl : '/' ∈ ntext
                · left; simp [process_row, hd, hyc, hdt, hpm, hco, hcut, hnt, hsl]
                · by_cases hda : '-' ∈ ntext
                  · rcases hsp : splitOnC '-' ntext with _ | ⟨p1, tl⟩
                    · left
                      simp [process_row, hd, hyc, hdt, hpm, hco, hcut, hnt, hsl, hda, hsp]
                    · rcases tl with _ | ⟨p2, tl2⟩
                      · left
                        simp [process_row, hd, hyc, hdt, hpm, hco, hcut, hnt, hsl, hda, hsp]
                      · rcases tl2 with _ | ⟨p3, tl3⟩
                        · right
                          refine ⟨hdf,
                            build_row_match cfg st.tournament st.surface
                              (dateStr (resolve_match_date st.year dm.2 dm.1 cfg.today))
                              p1 p2 r.oppHref r.scoreText r.roundText,
                            ?_, build_row_match_id cfg _ _ _ _ _ _ _ _, ?_⟩
                          · simp only [process_row, hdf, Bool.false_eq_true, if_false,
                              hyc, hdt, hpm, hco, hnt, hsp]
                            rw [if_neg (by simp [hcut]), if_neg hsl,
                              if_neg (fun hcon : ¬ _ => hcon hda)]
                            simp only [apply_ite ScanState.matchList, ite_self]
                          · simp only [process_row, hdf, Bool.false_eq_true, if_false,
                              hyc, hdt, hpm, hco, hnt, hsp]
                            rw [if_neg (by simp [hcut]), if_neg hsl,
                              if_neg (fun hcon : ¬ _ => hcon hda)]
                            simp only [apply_ite ScanState.done, List.length_append,
                              List.length_cons, List.length_nil]
                            by_cases hc : cfg.max_matches ≤ st.matchList.length + 1 <;>
                              simp [hc, hdf]
                        · left
                          simp [process_row, hd, hyc, hdt, hpm, hco, hcut, hnt, hsl, hda, hsp]
                  · left; simp [process_row, hd, hyc, hdt, hpm, hco, hcut, hnt, hsl, hda]
    · rcases lo with _ | link
      · left; simp [process_row, hd, hyc]
      · left; simp [process_row, hd, hyc]


/-- Fold preservation of a predicate. -/
lemma foldl_preserve {α β : Type} (P : α → Prop) (f : α → β → α)
    (step : ∀ a b, P a → P (f a b)) : ∀ (l : List β) (a : α), P a → P (l.foldl f a)
  | [], _, h => h
  | b :: l, a, h => foldl_preserve P f step l (f a b) (step a b h)


lemma process_row_capInv (cfg : FetchCfg) (st : ScanState) (r : Row)
    (h : capInv cfg.max_matches st) : capInv cfg.max_matches (process_row cfg st r) := by
  rcases process_row_shape cfg st r with ⟨h1, h2⟩ | ⟨hdf, m, h1, _, h3⟩
  · exact ⟨h1 ▸ h.1, fun hd => h1 ▸ h.2 (h2 ▸ hd)⟩
  · have hlt : st.matchList.length < cfg.max_matches := h.2 hdf
    constructor
    · rw [h1]
      simp only [List.length_append, List.length_cons, List.length_nil]
      omega
    · intro hd
      have hnc : ¬ cfg.max_matches ≤ st.matchList.length + 1 := by
        intro hc
        rw [(h3.mpr hc)] at hd
        exact Bool.true_eq_false.mp hd
      rw [h1]
      simp only [List.length_append, List.length_cons, List.length_nil]
      omega


lemma process_row_idInv (cfg : FetchCfg) (st : ScanState) (r : Row)
    (h : idInv st) : idInv (process_row cfg st r) := by
  rcases process_row_shape cfg st r with ⟨h1, _⟩ | ⟨_, m, h1, hid, _⟩
  · intro x hx; exact h x (h1 ▸ hx)
  · intro x hx
    rw [h1] at hx
    rcases List.mem_append.mp hx with hx1 | hx2
    · exact h x hx1
    · rw [List.mem_singleton.mp hx2]
      exact hid

/-! ## Concrete scenarios used by counterexamples and witnesses -/


/-- C10: for any positive `max_matches` (the default is 30 and
`_scrape_single_player` always passes 30, lines 1100-1107),
`fetch_player_matches` returns at most `max_matches` records, whatever the
parsed tables hold — so a single scrape pass never yields more than 30
matches for one subject. -/
theorem c10_fetch_at_most_max (cfg : FetchCfg) (tables : List (List Row))
    (h : 1 ≤ cfg.max_matches) :
    (fetch_player_matches cfg tables).length ≤ cfg.max_matches := by
  have hinit : capInv cfg.max_matches ⟨[], [], pys "Hard", cfg.today.year, false⟩ :=
    ⟨by simp, fun _ => by simpa using h⟩
  have hfin := foldl_preserve (capInv cfg.max_matches)
    (fun st rows => rows.foldl (process_row cfg) st)
    (fun st rows hst =>
      foldl_preserve (capInv cfg.max_matches) (process_row cfg)
        (fun a b hab => process_row_capInv cfg a b hab) rows st hst)
    tables _ hinit
  exact hfin.1


/-- C10 witness: a concrete fetch stays within the cap of 30. -/
theorem c10_witness :
    (fetch_player_matches cfgA [[hdrRow, janRow]]).length ≤ cfgA.max_matches :=
  c10_fetch_at_most_max cfgA [[hdrRow, janRow]] (by decide)

/-! ## C3: determinism of the match id -/


/-- C3 counterexample: the same raw match row (day 1, month 1, under a 2025
tournament header), scraped once on 2024-12-31 and once on 2025-01-02 —
identical page content, identical hash function, identical identity index —
produces two different `MatchRec.id` values, because the resolved date
depends on the scrape's current date.  Two scrape passes over the same raw
match therefore need not agree on the id. -/
theorem c3_counterexample :
    (fetch_player_matches cfgA [[hdrRow, janRow]]).map (fun m => m.id) =
      [pys "TE_2024-01-01_7_9"] ∧
    (fetch_player_matches cfgB [[hdrRow, janRow]]).map (fun m => m.id) =
      [pys "TE_2025-01-01_7_9"] ∧
    pys "TE_2024-01-01_7_9" ≠ pys "TE_2025-01-01_7_9" := by
  refine ⟨by decide, by decide, by decide⟩


/-- C3 (amended): every record built by `fetch_player_matches` has
`id = TE_<date>_<abs winnerId>_<abs loserId>`, a function of its own
resolved date and participant ids alone; two builds of the same raw match
yield the same id exactly when they resolve the same date and the same
winner and loser ids (as they do within one pass), while passes run on
different current dates may resolve different dates and hence different
ids. -/
theorem c3_id_shape (cfg : FetchCfg) (tables : List (List Row)) (m : MatchRec)
    (hm : m ∈ fetch_player_matches cfg tables) :
    m.id = mk_match_id m.date m.winner_id m.loser_id := by
  have hinit : idInv ⟨[], [], pys "Hard", cfg.today.year, false⟩ := by
    intro x hx
    simp at hx
  have hfin := foldl_preserve idInv
    (fun st rows => rows.foldl (process_row cfg) st)
    (fun st rows hst =>
      foldl_preserve idInv (process_row cfg)
        (fun a b hab => process_row_idInv cfg a b hab) rows st hst)
    tables _ hinit
  exact hfin m hm


/-- C3 witness: the concrete record of the 2024-12-31 fetch carries the
deterministic id shape. -/
theorem c3_witness : recA.id = mk_match_id recA.date recA.winner_id recA.loser_id :=
  c3_id_shape cfgA [[hdrRow, janRow]] recA (by decide)

/-! ## C7: winner and loser assignment -/


/-- C7 counterexample: the parsed row carries no explicit win/lose signal
(the selectors of lines 653-788 extract none, which is why `Row` has no such
field), and its first two numeric score tokens are 4 and 6, so the claim's
rule makes the second side the winner; the code nonetheless records the
first side — the subject, id 100 — as the winner, because assignment is
purely positional (`is_win = player_last_name in player1_name.lower()`,
line 760). -/
theorem c7_counterexample :
    (fetch_player_matches c7cfg [[c7row]]).map
        (fun m => (m.winner_id, m.winner_name, m.loser_id, m.score)) =
      [(100, pys "Novak Djokovic", 200, pys "4-6, 4-6")] ∧
    spec_winner_first_token (numeric_tokens (pys "4-6, 4-6")) = some false := by
  refine ⟨by decide, by decide⟩


lemma eraseScore_build (cfg : FetchCfg) (t s md p1 p2 : PyStr)
    (oh rt : Option PyStr) (sc1 sc2 : Option PyStr) :
    eraseScore (build_row_match cfg t s md p1 p2 oh sc1 rt) =
      eraseScore (build_row_match cfg t s md p1 p2 oh sc2 rt) := rfl


set_option maxHeartbeats 2000000 in
lemma process_row_score_agnostic (cfg : FetchCfg) (r1 r2 : Row) (s1 s2 : ScanState)
    (hr : r1 = { r2 with scoreText := r1.scoreText })
    (h : stRel s1 s2) : stRel (process_row cfg s1 r1) (process_row cfg s2 r2) := by
  obtain ⟨ml1, t1, sf1, y1, d1⟩ := s1
  obtain ⟨ml2, t2, sf2, y2, d2⟩ := s2
  obtain ⟨hml, ht, hsf, hy, hd⟩ := h
  simp only at hml ht hsf hy hd
  subst ht hsf hy hd
  obtain ⟨yc1, dt1, nt1, oh1, sc1, rt1⟩ := r1
  obtain ⟨yc2, dt2, nt2, oh2, sc2, rt2⟩ := r2
  simp only [Row.mk.injEq] at hr
  obtain ⟨hyc, hdt, hnt, hoh, -, hrt⟩ := hr
  subst hyc hdt hnt hoh hrt
  have hlen : ml1.length = ml2.length := by
    have := congrArg List.length hml
    simpa using this
  by_cases hdn : d1 = true
  · simp [process_row, hdn]
    exact ⟨hml, rfl, rfl, rfl, rfl⟩
  · have hdf : d1 = false := by
      cases hb : d1
      · rfl
      · exact absurd hb hdn
    subst hdf
    rcases yc1 with _ | lo
    · rcases dt1 with _ | dtext
      · simp [process_row]
        exact ⟨hml, rfl, rfl, rfl, rfl⟩
      · rcases hpm : parse_day_month dtext with _ | dm
        · simp [process_row, hpm]
          exact ⟨hml, rfl, rfl, rfl, rfl⟩
        · rcases hco : cfg.cutoff_date with _ | cut
          · rcases nt1 with _ | ntext
            · simp [process_row, hpm, hco]
              exact ⟨hml, rfl, rfl, rfl, rfl⟩
            · by_cases hsl : '/' ∈ ntext
              · simp [process_row, hpm, hco, hsl]
                exact ⟨hml, rfl, rfl, rfl, rfl⟩
              · by_cases hda : '-' ∈ ntext
                · rcases hsp : splitOnC '-' ntext with _ | ⟨p1, tl⟩
                  · simp [process_row, hpm, hco, hsl, hda, hsp]
                    exact ⟨hml, rfl, rfl, rfl, rfl⟩
                  · rcases tl with _ | ⟨p2, tl2⟩
                    · simp [process_row, hpm, hco, hsl, hda, hsp]
                      exact ⟨hml, rfl, rfl, rfl, rfl⟩
                    · rcases tl2 with _ | ⟨p3, tl3⟩
                      · simp only [process_row, hpm, hco, hsp, Bool.false_eq_true, if_false]
                        rw [if_neg hsl, if_neg hsl,
                          if_neg (fun hcon : ¬ _ => hcon hda),
                          if_neg (fun hcon : ¬ _ => hcon hda)]
                        by_cases hc : cfg.max_matches ≤ ml1.length + 1
                        · rw [if_pos (by simpa using hc), if_pos (by simpa [← hlen] using hc)]
                          refine ⟨?_, rfl, rfl, rfl, rfl⟩
                          simp only [List.map_append, hml, List.map_cons, List.map_nil]
                          rw [eraseScore_build cfg t1 sf1 _ p1 p2 oh1 rt1 sc1 sc2]
                        · rw [if_neg (by simpa using hc), if_neg (by simpa [← hlen] using hc)]
                          refine ⟨?_, rfl, rfl, rfl, rfl⟩
                          simp only [List.map_append, hml, List.map_cons, List.map_nil]
                          rw [eraseScore_build cfg t1 sf1 _ p1 p2 oh1 rt1 sc1 sc2]
                      · simp [process_row, hpm, hco, hsl, hda, hsp]
                        exact ⟨hml, rfl, rfl, rfl, rfl⟩
                · simp [process_row, hpm, hco, hsl, hda]
                  exact ⟨hml, rfl, rfl, rfl, rfl⟩
          · by_cases hcut :
                pyStrLt (dateStr (resolve_match_date y1 dm.2 dm.1 cfg.today)) cut = true
            · simp only [process_row, hpm, hco, Bool.false_eq_true, if_false]
              rw [if_pos hcut, if_pos hcut]
              exact ⟨hml, rfl, rfl, rfl, rfl⟩
            · rcases nt1 with _ | ntext
              · simp [process_row, hpm, hco, hcut]
                exact ⟨hml, rfl, rfl, rfl, rfl⟩
              · by_cases hsl : '/' ∈ ntext
                · simp [process_row, hpm, hco, hcut, hsl]
                  exact ⟨hml, rfl, rfl, rfl, rfl⟩
                · by_cases hda : '-' ∈ ntext
                  · rcases hsp : splitOnC '-' ntext with _ | ⟨p1, tl⟩
                    · simp [process_row, hpm, hco, hcut, hsl, hda, hsp]
                      exact ⟨hml, rfl, rfl, rfl, rfl⟩
                    · rcases tl with _ | ⟨p2, tl2⟩
                      · simp [process_row, hpm, hco, hcut, hsl, hda, hsp]
                        exact ⟨hml, rfl, rfl, rfl, rfl⟩
                      · rcases tl2 with _ | ⟨p3, tl3⟩
                        · simp only [process_row, hpm, hco, hsp, Bool.false_eq_true, if_false]
                          rw [if_neg hcut, if_neg hcut, if_neg hsl, if_neg hsl,
                            if_neg (fun hcon : ¬ _ => hcon hda),
                            if_neg (fun hcon : ¬ _ => hcon hda)]
                          by_cases hc : cfg.max_matches ≤ ml1.length + 1
                          · rw [if_pos (by simpa using hc), if_pos (by simpa [← hlen] using hc)]
                            refine ⟨?_, rfl, rfl, rfl, rfl⟩
                            simp only [List.map_append, hml, List.map_cons, List.map_nil]
                            rw [eraseScore_build cfg t1 sf1 _ p1 p2 oh1 rt1 sc1 sc2]
                          · rw [if_neg (by simpa using hc), if_neg (by simpa [← hlen] using hc)]
                            refine ⟨?_, rfl, rfl, rfl, rfl⟩
                            simp only [List.map_append, hml, List.map_cons, List.map_nil]
                            rw [eraseScore_build cfg t1 sf1 _ p1 p2 oh1 rt1 sc1 sc2]
                        · simp [process_row, hpm, hco, hcut, hsl, hda, hsp]
                          exact ⟨hml, rfl, rfl, rfl, rfl⟩
                  · simp [process_row, hpm, hco, hcut, hsl, hda]
                    exact ⟨hml, rfl, rfl, rfl, rfl⟩
    · rcases lo with _ | link
      · simp [process_row]
        exact ⟨hml, rfl, rfl, rfl, rfl⟩
      · simp [process_row]
        exact ⟨hml, rfl, rfl, rfl, rfl⟩


lemma foldl_rows_score_agnostic (cfg : FetchCfg) :
    ∀ (rows1 rows2 : List Row) (s1 s2 : ScanState),
      rowsRES rows1 rows2 = true → stRel s1 s2 →
      stRel (rows1.foldl (process_row cfg) s1) (rows2.foldl (process_row cfg) s2)
  | [], [], _, _, _, hs => hs
  | [], _ :: _, _, _, hres, _ => by simp [rowsRES] at hres
  | _ :: _, [], _, _, hres, _ => by simp [rowsRES] at hres
  | r1 :: t1, r2 :: t2, s1, s2, hres, hs => by
    simp only [rowsRES, Bool.and_eq_true, decide_eq_true_eq] at hres
    exact foldl_rows_score_agnostic cfg t1 t2 _ _ hres.2
      (process_row_score_agnostic cfg r1 r2 s1 s2 hres.1 hs)


lemma foldl_tables_score_agnostic (cfg : FetchCfg) :
    ∀ (tb1 tb2 : List (List Row)) (s1 s2 : ScanState),
      tablesRES tb1 tb2 = true → stRel s1 s2 →
      stRel (tb1.foldl (fun st rows => rows.foldl (process_row cfg) st) s1)
        (tb2.foldl (fun st rows => rows.foldl (process_row cfg) st) s2)
  | [], [], _, _, _, hs => hs
  | [], _ :: _, _, _, hres, _ => by simp [tablesRES] at hres
  | _ :: _, [], _, _, hres, _ => by simp [tablesRES] at hres
  | a :: t1, b :: t2, s1, s2, hres, hs => by
    simp only [tablesRES, Bool.and_eq_true] at hres
    exact foldl_tables_score_agnostic cfg t1 t2 _ _ hres.2
      (foldl_rows_score_agnostic cfg a b s1 s2 hres.1 hs)


/-- C7 (amended): winner and loser assignment never consults the score
cell — it is derived purely from the position of the subject's last name in
the participants text ("Winner-Loser" order) — so two fetches over tables
that differ only in their score-cell texts produce the same records apart
from the copied score string: in particular the same winner and loser on
every row.  (No explicit score-token fallback exists in the code; the
counterexample shows the token rule disagreeing with the recorded winner.) -/
theorem c7_score_never_consulted (cfg : FetchCfg) (tb1 tb2 : List (List Row))
    (h : tablesRES tb1 tb2 = true) :
    (fetch_player_matches cfg tb1).map eraseScore =
      (fetch_player_matches cfg tb2).map eraseScore := by
  have hinit : stRel ⟨[], [], pys "Hard", cfg.today.year, false⟩
      ⟨[], [], pys "Hard", cfg.today.year, false⟩ := ⟨rfl, rfl, rfl, rfl, rfl⟩
  exact (foldl_tables_score_agnostic cfg tb1 tb2 _ _ h hinit).1


/-- C7 witness: swapping the score cell of the concrete row changes nothing
but the stored score string. -/
theorem c7_witness :
    (fetch_player_matches cfgA [[hdrRow, janRow]]).map eraseScore =
      (fetch_player_matches cfgA [[hdrRow, janRow2]]).map eraseScore :=
  c7_score_never_consulted cfgA [[hdrRow, janRow]] [[hdrRow, janRow2]] (by decide)

/-! ## C2: the sign of generated player ids -/


/-- C2 counterexample: a hash value that is a multiple of `10 ^ 9` (Python's
`hash` can return any integer, e.g. `hash("") = 0`) produces the player id
0 for either tour, which is neither strictly positive for circuit A (ATP)
nor strictly negative for circuit B (WTA), contradicting the claim's strict
signs. -/
theorem c2_counterexample :
    generate_player_id 0 Tour.ATP = 0 ∧ generate_player_id 0 Tour.WTA = 0 ∧
    ¬ (0 < generate_player_id 0 Tour.ATP) ∧ ¬ (generate_player_id 0 Tour.WTA < 0) := by
  refine ⟨by decide, by decide, by decide, by decide⟩


/-- C2 (amended): every id the scraper generates is nonnegative for circuit
A (ATP) and nonpositive for circuit B (WTA) — zero is possible exactly when
the hash is a multiple of `10 ^ 9` — and, for a fixed tour, ids can never
take both a negative and a positive value, so re-deriving an id for the
same tour can never flip its sign. -/
theorem c2_id_sign :
    (∀ h : Int, 0 ≤ generate_player_id h Tour.ATP) ∧
    (∀ h : Int, generate_player_id h Tour.WTA ≤ 0) ∧
    (∀ h1 h2 : Int, ∀ t : Tour,
      ¬ (generate_player_id h1 t < 0 ∧ 0 < generate_player_id h2 t)) := by
  have hATP : ∀ h : Int, 0 ≤ generate_player_id h Tour.ATP := by
    intro h
    simp only [generate_player_id, pyMod]
    exact Int.emod_nonneg h (by norm_num)
  have hWTA : ∀ h : Int, generate_player_id h Tour.WTA ≤ 0 := by
    intro h
    simp only [generate_player_id, pyMod]
    exact neg_nonpos.mpr (Int.natCast_nonneg _)
  refine ⟨hATP, hWTA, ?_⟩
  intro h1 h2 t hcon
  cases t with
  | ATP => exact absurd hcon.1 (not_lt.mpr (hATP h1))
  | WTA => exact absurd hcon.2 (not_lt.mpr (hWTA h2))

/-! ## C6: the multi-candidate tie-break of resolution step 2 -/


/-- C6 counterexample: in `smithIdx` both candidates for the query
"Smith A." are positive and share the initial; the lexicographically-first
candidate is "Abby Smith" (id 2, `"abby smith" < "anna smith"`), yet
`find_player_id` returns id 1, the candidate that was inserted first. -/
theorem c6_counterexample :
    find_player_id smithIdx (pys "Smith A.") = some 1 ∧
    pyStrLt (normalize (pys "Abby Smith")) (normalize (pys "Anna Smith")) = true ∧
    (0 : Int) < 1 ∧ (0 : Int) < 2 ∧ (1 : Int) ≠ 2 := by
  refine ⟨by decide, by decide, by decide, by decide, by decide⟩


/-- C6 (amended): with multiple candidates sharing the query's first
initial, resolution step 2 returns the first candidate in index insertion
order whose id is positive — not the lexicographically-first — and the
first candidate in insertion order when none is positive: the same player
set probed after either insertion order returns the id inserted first
(1 resp. 2), a negative-only pool returns the first-inserted negative id,
and a positive candidate beats an earlier-inserted negative one. -/
theorem c6_insertion_order_tiebreak :
    find_player_id smithIdx (pys "Smith A.") = some 1 ∧
    find_player_id smithIdxRev (pys "Smith A.") = some 2 ∧
    find_player_id smithIdxNeg (pys "Smith A.") = some (-1) ∧
    find_player_id smithIdxMix (pys "Smith A.") = some 2 := by
  refine ⟨by decide, by decide, by decide, by decide⟩

/-! ## C8: the cache TTL policy -/


/-- C8: `_should_scrape_player` returns true for every priority subject
regardless of the cache, and returns false for a non-priority subject
exactly when the cache holds an entry for the lower-cased name whose age in
floored days is strictly below the 7-day TTL; a missing entry always means
the subject is scraped. -/
theorem c8_should_scrape (cache : List (PyStr × Int)) (now : Int) (name : PyStr) :
    should_scrape_player cache now name true = true ∧
    (should_scrape_player cache now name false = false ↔
      ∃ t, dget? cache (lowerP name) = some t ∧
        Int.fdiv (now - t) 86400 < CACHE_TTL_DAYS) := by
  constructor
  · rfl
  · simp only [should_scrape_player, if_false, Bool.false_eq_true]
    cases hget : dget? cache (lowerP name) with
    | none => simp [hget]
    | some t =>
      simp only [hget]
      by_cases hage : Int.fdiv (now - t) 86400 < CACHE_TTL_DAYS
      · simp [hage]
      · simp [hage]

/-! ## C9: loading the scrape cache never raises -/


/-- C9: `_load_scrape_cache` never lets an exception escape — for every state
of the persisted file it returns `.ok` — and an absent or unparseable file
yields the empty cache (every subject treated as never scraped), while a
parseable file yields its contents. -/
theorem c9_load_cache_fail_open :
    (∀ f : CacheFile, ∃ c, load_scrape_cache f = Except.ok c) ∧
    load_scrape_cache CacheFile.absent = Except.ok [] ∧
    load_scrape_cache CacheFile.corrupt = Except.ok [] ∧
    (∀ d, load_scrape_cache (CacheFile.valid d) = Except.ok d) := by
  refine ⟨?_, rfl, rfl, fun d => rfl⟩
  intro f
  cases f with
  | absent => exact ⟨[], rfl⟩
  | corrupt => exact ⟨[], rfl⟩
  | valid d => exact ⟨d, rfl⟩

/-! ## C4: date resolution -/


lemma daysBeforeMonth_one (y : Nat) : daysBeforeMonth y 1 = 0 := rfl


lemma daysBeforeMonth_twelve (y : Nat) :
    daysBeforeMonth y 12 = 334 + (if isLeap y then 1 else 0) := by
  have h : List.range 11 = [0, 1, 2, 3, 4, 5, 6, 7, 8, 9, 10] := by decide
  simp only [daysBeforeMonth, h, List.foldl, daysInMonth]
  by_cases hL : isLeap y = true <;> simp [hL]


lemma isLeap_iff (y : Nat) :
    isLeap y = true ↔ (y % 4 = 0 ∧ (y % 100 ≠ 0 ∨ y % 400 = 0)) := by
  simp [isLeap, Bool.and_eq_true, Bool.or_eq_true, decide_eq_true_eq]


set_option maxHeartbeats 1000000 in
lemma daysBeforeYear_succ (y : Nat) (hy : 1 ≤ y) :
    daysBeforeYear (y + 1) = daysBeforeYear y + 365 + (if isLeap y then 1 else 0) := by
  simp only [daysBeforeYear, Nat.add_sub_cancel, isLeap_iff]
  by_cases h4 : y % 4 = 0 <;> by_cases h100 : y % 100 = 0 <;> by_cases h400 : y % 400 = 0
  · rw [if_pos ⟨h4, Or.inr h400⟩]; omega
  · rw [if_neg (fun hp => hp.2.elim (fun hb => hb h100) (fun hc => h400 hc))]; omega
  · rw [if_pos ⟨h4, Or.inl h100⟩]; omega
  · rw [if_pos ⟨h4, Or.inl h100⟩]; omega
  · rw [if_neg (fun hp => h4 hp.1)]; omega
  · rw [if_neg (fun hp => h4 hp.1)]; omega
  · rw [if_neg (fun hp => h4 hp.1)]; omega
  · rw [if_neg (fun hp => h4 hp.1)]; omega


/-- C4: in the smart year detection, a candidate date strictly in the future
relative to today has its year replaced by today's year; if the candidate is
still in the future it gets today's year minus one (an unparseable retried
candidate keeps today's year, as the `except ValueError` leaves it).  And at
the boundary day 31, month 12, tournament-year hint one less than today's
year, with today being January 5 of the following year, resolution keeps
December 31 of the prior year — neither a future date nor two years back. -/
theorem c4_date_resolution :
    (∀ (cy m d : Nat) (today : Date),
      isValidDate cy m d = true →
      dateLt today ⟨cy, m, d⟩ = true →
      resolve_match_date cy m d today =
        if isValidDate today.year m d = true then
          (if dateLt today ⟨today.year, m, d⟩ = true then ⟨today.year - 1, m, d⟩
           else ⟨today.year, m, d⟩)
        else ⟨today.year, m, d⟩) ∧
    (∀ y : Nat, resolve_match_date y 12 31 ⟨y + 1, 1, 5⟩ = ⟨y, 12, 31⟩) := by
  constructor
  · intro cy m d today hvalid hfut
    simp only [resolve_match_date, hvalid, hfut]
    by_cases h2 : isValidDate today.year m d = true <;>
      by_cases h3 : dateLt today ⟨today.year, m, d⟩ = true <;>
        simp [h2, h3]
  · intro y
    by_cases hv : isValidDate y 12 31 = true
    · have hy1 : 1 ≤ y := by
        simp only [isValidDate, Bool.and_eq_true, decide_eq_true_eq] at hv
        exact hv.1.1.1.1.1
      have hlt : dateLt ⟨y + 1, 1, 5⟩ ⟨y, 12, 31⟩ = false := by
        simp only [dateLt]
        simp only [Bool.or_eq_false_iff, Bool.and_eq_false_iff]
        constructor
        · simp only [decide_eq_false_iff_not]; omega
        · left; simp only [decide_eq_false_iff_not]; omega
      have hda : toOrdinal ⟨y + 1, 1, 5⟩ - toOrdinal ⟨y, 12, 31⟩ = 5 := by
        have e2 := daysBeforeMonth_twelve y
        have e3 := daysBeforeYear_succ y hy1
        simp only [toOrdinal, daysBeforeMonth_one, e2, e3]
        by_cases hL : isLeap y = true <;> simp [hL] <;> omega
      simp only [resolve_match_date, hv, hlt, hda]
      norm_num
    · simp [resolve_match_date, hv]

/-! ## C5: idempotence of add_player -/


lemma mem_keys_dset {κ ν : Type} [DecidableEq κ] (k a : κ) (v : ν) :
    ∀ d : List (κ × ν), a ∈ (dset d k v).map Prod.fst ↔ a ∈ d.map Prod.fst ∨ a = k
  | [] => by simp [dset]
  | (k0, v0) :: rest => by
    by_cases h : k0 = k
    · subst h
      simp [dset]
      tauto
    · simp only [dset, if_neg h, List.map_cons, List.mem_cons,
        mem_keys_dset k a v rest]
      tauto


lemma dset_keysNodup {κ ν : Type} [DecidableEq κ] (k : κ) (v : ν) :
    ∀ d : List (κ × ν), keysNodup d → keysNodup (dset d k v)
  | [] => by simp [keysNodup, dset]
  | (k0, v0) :: rest => by
    intro h
    simp only [keysNodup, List.map_cons, List.nodup_cons] at h
    by_cases heq : k0 = k
    · subst heq
      simpa [keysNodup, dset] using h
    · simp only [keysNodup, dset, if_neg heq, List.map_cons, List.nodup_cons]
      refine ⟨?_, dset_keysNodup k v rest h.2⟩
      rw [mem_keys_dset]
      rintro (hmem | hk)
      · exact h.1 hmem
      · exact heq hk


lemma foldl_players_proj (F : Matcher → PyStr → Matcher)
    (hF : ∀ mm p, (F mm p).players = mm.players) :
    ∀ (l : List PyStr) (mm : Matcher), (l.foldl F mm).players = mm.players
  | [], _ => rfl
  | p :: l, mm => by rw [List.foldl_cons, foldl_players_proj F hF l (F mm p), hF]


lemma foldl_bfn_proj (F : Matcher → PyStr → Matcher)
    (hF : ∀ mm p, (F mm p).by_full_name = mm.by_full_name) :
    ∀ (l : List PyStr) (mm : Matcher), (l.foldl F mm).by_full_name = mm.by_full_name
  | [], _ => rfl
  | p :: l, mm => by rw [List.foldl_cons, foldl_bfn_proj F hF l (F mm p), hF]


lemma add_player_players (m : Matcher) (pid : Int) (n : PyStr) :
    (add_player m pid n).players = if n = [] then m.players else dset m.players pid n := by
  by_cases hn : n = []
  · simp [add_player, hn]
  · simp only [add_player, hn, if_false, Bool.false_eq_true]
    rw [foldl_players_proj]
    · repeat' split
      all_goals rfl
    · intro mm p
      dsimp only
      by_cases h1 : 1 < p.length
      · simp only [h1, if_true]
        split <;> split <;> rfl
      · simp [h1]


lemma add_player_bfn (m : Matcher) (pid : Int) (n : PyStr) :
    (add_player m pid n).by_full_name =
      if n = [] then m.by_full_name
      else dset (dset m.by_full_name (normalize n) pid)
        ((normalize n).filter (fun c => c ≠ ' ')) pid := by
  by_cases hn : n = []
  · simp [add_player, hn]
  · simp only [add_player, hn, if_false, Bool.false_eq_true]
    rw [foldl_bfn_proj]
    · repeat' split
      all_goals rfl
    · intro mm p
      dsimp only
      by_cases h1 : 1 < p.length
      · simp only [h1, if_true]
        split <;> split <;> rfl
      · simp [h1]


/-- C5 (amended): re-adding the same `(id, canonicalName)` pair updates the
dict-backed indexes in place — after any sequence of `add_player` calls the
`players` and `by_full_name` dictionaries never hold a duplicate key — while
the list-valued indexes (`by_name_parts`, the primary `by_last_name` append,
`by_last_initial`) do accumulate duplicate entries on re-add, as the
counterexample shows. -/
theorem c5_dict_indexes_no_duplicates (ops : List (Int × PyStr)) :
    keysNodup (addAll ops).players ∧ keysNodup (addAll ops).by_full_name := by
  refine foldl_preserve
    (fun mm => keysNodup mm.players ∧ keysNodup mm.by_full_name)
    (fun mm e => add_player mm e.1 e.2) ?_ ops emptyMatcher
    ⟨by simp [keysNodup, emptyMatcher], by simp [keysNodup, emptyMatcher]⟩
  intro mm e h
  constructor
  · rw [add_player_players]
    split
    · exact h.1
    · exact dset_keysNodup _ _ _ h.1
  · rw [add_player_bfn]
    split
    · exact h.2
    · exact dset_keysNodup _ _ _ (dset_keysNodup _ _ _ h.2)


/-- C5 counterexample: re-adding the identical `(id, canonicalName)` pair
leaves `by_name_parts` (and `by_last_name`, `by_last_initial`) holding the
same player twice — the entry list for part "ana" is a two-element list with
a duplicated entry — refuting "no entry list ever contains the same player
twice". -/
theorem c5_counterexample :
    dget? dupM.by_name_parts (pys "ana") =
      some [(5, pys "Ana Grubor"), (5, pys "Ana Grubor")] ∧
    ¬ (dgetD dupM.by_name_parts (pys "ana") []).Nodup ∧
    (dgetD dupM.by_last_name (pys "grubor") []).length = 2 ∧
    (dgetD dupM.by_last_initial (pys "grubor_a") []).length = 2 := by
  refine ⟨by decide, by decide, by decide, by decide⟩


lemma clean_append (a b : PyStr) : clean (a ++ b) = clean a ++ clean b := by
  simp [clean, lowerP]


lemma clean_of_clean_chars (w : PyStr)
    (h : ∀ c ∈ w, Char.toLower c = c ∧ c ≠ '.') : clean w = w := by
  unfold clean lowerP
  rw [List.map_congr_left (fun a ha => (h a ha).1), List.map_id',
    List.filter_eq_self.mpr]
  intro a ha
  simp [(h a ha).2]


lemma clean_WF (w : PyStr) (h : WFpart w) : clean w = w :=
  clean_of_clean_chars w (fun c hc => ⟨(h.2 c hc).1, (h.2 c hc).2.2⟩)


lemma clean_space_cons (b : PyStr) : clean (' ' :: b) = ' ' :: clean b := by
  simp [clean, lowerP]


lemma wsplit_cons_cons (c d : Char) (t : PyStr) (hc : c ≠ ' ') (hd : d ≠ ' ') :
    wsplit (c :: d :: t) =
      (match wsplit (d :: t) with
        | [] => [[c]]
        | x :: xs => (c :: x) :: xs) := by
  conv_lhs => rw [wsplit]
  rw [if_neg hc]
  rw [if_neg hd]


lemma wsplit_token (a : PyStr) (ha : ∀ c ∈ a, c ≠ ' ') (hne : a ≠ []) :
    ∀ rest : PyStr, wsplit (a ++ ' ' :: rest) = a :: wsplit rest := by
  induction a with
  | nil => exact absurd rfl hne
  | cons c t ih =>
    intro rest
    have hc : c ≠ ' ' := ha c (List.mem_cons_self c t)
    cases t with
    | nil =>
      simp [wsplit, hc]
    | cons d t2 =>
      have hd : d ≠ ' ' := ha d (List.mem_cons_of_mem c (List.mem_cons_self d t2))
      have ihr := ih (fun x hx => ha x (List.mem_cons_of_mem c hx)) (by simp) rest
      simp only [List.cons_append] at ihr ⊢
      rw [wsplit_cons_cons c d _ hc hd, ihr]


lemma wsplit_single (a : PyStr) (ha : ∀ c ∈ a, c ≠ ' ') (hne : a ≠ []) :
    wsplit a = [a] := by
  induction a with
  | nil => exact absurd rfl hne
  | cons c t ih =>
    have hc : c ≠ ' ' := ha c (List.mem_cons_self c t)
    cases t with
    | nil => simp [wsplit, hc]
    | cons d t2 =>
      have hd : d ≠ ' ' := ha d (List.mem_cons_of_mem c (List.mem_cons_self d t2))
      have iht := ih (fun x hx => ha x (List.mem_cons_of_mem c hx)) (by simp)
      rw [wsplit_cons_cons c d _ hc hd, iht]


lemma joinParts_pair (a b : PyStr) : joinParts [a, b] = a ++ ' ' :: b := by
  simp [joinParts, List.intercalate]


lemma normalize_pair (a b : PyStr) (hA : WFpart a) (hB : WFpart b) :
    normalize (a ++ ' ' :: b) = a ++ ' ' :: b := by
  have hclean : clean (a ++ ' ' :: b) = a ++ ' ' :: b := by
    rw [show a ++ ' ' :: b = a ++ (' ' :: b) from rfl, clean_append, clean_WF a hA,
      clean_space_cons, clean_WF b hB]
  unfold Tennis.normalize
  rw [hclean,
    wsplit_token a (fun c hc => (hA.2 c hc).2.1) hA.1 b,
    wsplit_single b (fun c hc => (hB.2 c hc).2.1) hB.1,
    joinParts_pair]


lemma extract_components_pair (a b : PyStr) (hA : WFpart a) (hB : WFpart b)
    (ha1 : a.length ≠ 1) (hb1 : b.length ≠ 1) :
    extract_components (a ++ ' ' :: b) =
      ⟨b, a, [a.headD ' '], [a, b]⟩ := by
  have hclean : clean (a ++ ' ' :: b) = a ++ ' ' :: b := by
    rw [show a ++ ' ' :: b = a ++ (' ' :: b) from rfl, clean_append, clean_WF a hA,
      clean_space_cons, clean_WF b hB]
  have hparts : wsplit (clean (a ++ ' ' :: b)) = [a, b] := by
    rw [hclean, wsplit_token a (fun c hc => (hA.2 c hc).2.1) hA.1 b,
      wsplit_single b (fun c hc => (hB.2 c hc).2.1) hB.1]
  unfold extract_components
  rw [hparts]
  obtain ⟨c, t, rfl⟩ : ∃ c t, a = c :: t := by
    cases a with
    | nil => exact absurd rfl hA.1
    | cons c t => exact ⟨c, t, rfl⟩
  simp only [List.length_cons, List.length_nil] at ha1 hb1
  simp [ha1, hb1]


lemma clean_sp_char_dot (d : Char) (hdl : Char.toLower d = d) (hdd : d ≠ '.') :
    clean [' ', d, '.'] = [' ', d] := by
  simp [clean, lowerP, hdl, hdd]


lemma extract_components_last_initial (a : PyStr) (d : Char) (hA : WFpart a)
    (ha1 : a.length ≠ 1) (hdl : Char.toLower d = d) (hds : d ≠ ' ') (hdd : d ≠ '.') :
    extract_components (a ++ [' ', d, '.']) = ⟨a, [], [d], [a, [d]]⟩ := by
  have hclean : clean (a ++ [' ', d, '.']) = a ++ [' ', d] := by
    rw [show a ++ [' ', d, '.'] = a ++ [' ', d, '.'] from rfl, clean_append,
      clean_WF a hA, clean_sp_char_dot d hdl hdd]
  have hparts : wsplit (clean (a ++ [' ', d, '.'])) = [a, [d]] := by
    rw [hclean, show a ++ [' ', d] = a ++ ' ' :: [d] from rfl,
      wsplit_token a (fun c hc => (hA.2 c hc).2.1) hA.1 [d],
      wsplit_single [d] (by simpa using hds) (by simp)]
  unfold extract_components
  rw [hparts]
  simp


lemma append_space_inj (a : PyStr) (ha : ∀ x ∈ a, x ≠ ' ') :
    ∀ (c : PyStr), (∀ x ∈ c, x ≠ ' ') →
      ∀ b d : PyStr, a ++ ' ' :: b = c ++ ' ' :: d → a = c ∧ b = d := by
  induction a with
  | nil =>
    intro c hc b d h
    cases c with
    | nil =>
      simp at h
      exact ⟨rfl, h⟩
    | cons y c2 =>
      simp only [List.nil_append, List.cons_append, List.cons.injEq] at h
      exact absurd h.1.symm (hc y (List.mem_cons_self y c2))
  | cons x a2 ih =>
    intro c hc b d h
    cases c with
    | nil =>
      simp only [List.cons_append, List.nil_append, List.cons.injEq] at h
      exact absurd h.1 (ha x (List.mem_cons_self x a2))
    | cons y c2 =>
      simp only [List.cons_append, List.cons.injEq] at h
      have := ih (fun z hz => ha z (List.mem_cons_of_mem x hz)) c2
        (fun z hz => hc z (List.mem_cons_of_mem y hz)) b d h.2
      exact ⟨by rw [h.1, this.1], this.2⟩


lemma ne_of_space_mem (u v : PyStr) (hu : ' ' ∈ u) (hv : ' ' ∉ v) : u ≠ v :=
  fun h => hv (h ▸ hu)


lemma filter_no_space (w : PyStr) (h : ∀ c ∈ w, c ≠ ' ') :
    w.filter (fun c => c ≠ ' ') = w := by
  rw [List.filter_eq_self]
  intro a ha
  simp [h a ha]


lemma filter_space_append (a b : PyStr) (hA : ∀ c ∈ a, c ≠ ' ') (hB : ∀ c ∈ b, c ≠ ' ') :
    (a ++ ' ' :: b).filter (fun c => c ≠ ' ') = a ++ b := by
  rw [show a ++ ' ' :: b = a ++ (' ' :: b) from rfl, List.filter_append,
    filter_no_space a hA]
  have hstep : List.filter (fun c => decide (c ≠ ' ')) (' ' :: b) =
      List.filter (fun c => decide (c ≠ ' ')) b := by simp
  rw [hstep, filter_no_space b hB]


lemma add_player_single (f l : PyStr) (pid : Int) (hF : WFpart f) (hL : WFpart l)
    (hf3 : 3 ≤ f.length) (hl3 : 3 ≤ l.length) (hfl : f ≠ l) :
    add_player emptyMatcher pid (f ++ ' ' :: l) =
      { players := [(pid, f ++ ' ' :: l)]
        by_full_name := [(f ++ ' ' :: l, pid), (f ++ l, pid)]
        by_last_name := [(l, [(pid, f ++ ' ' :: l, [f.headD ' '])]),
                         (f, [(pid, f ++ ' ' :: l, [l.headD ' '])])]
        by_name_parts := [(f, [(pid, f ++ ' ' :: l)]), (l, [(pid, f ++ ' ' :: l)])]
        by_last_initial := [(l ++ '_' :: [f.headD ' '], [(pid, f ++ ' ' :: l)])] } := by
  obtain ⟨fc, ft, rfl⟩ : ∃ c t, f = c :: t := by
    cases f with
    | nil => exact absurd rfl hF.1
    | cons c t => exact ⟨c, t, rfl⟩
  obtain ⟨lc, lt, rfl⟩ : ∃ c t, l = c :: t := by
    cases l with
    | nil => exact absurd rfl hL.1
    | cons c t => exact ⟨c, t, rfl⟩
  have hlf : ¬((lc :: lt) = (fc :: ft)) := fun h => hfl h.symm
  have hf1 : 1 < (fc :: ft).length := by
    simp only [List.length_cons] at hf3 ⊢
    omega
  have hl1 : 1 < (lc :: lt).length := by
    simp only [List.length_cons] at hl3 ⊢
    omega
  have hfne1 : ¬((fc :: ft).length = 1) := by
    simp only [List.length_cons] at hf3 ⊢
    omega
  have hlne1 : ¬((lc :: lt).length = 1) := by
    simp only [List.length_cons] at hl3 ⊢
    omega
  have hfilter := filter_space_append (fc :: ft) (lc :: lt)
    (fun c hc => (hF.2 c hc).2.1) (fun c hc => (hL.2 c hc).2.1)
  have hNNn : ¬((fc :: ft) ++ ' ' :: (lc :: lt) = (fc :: ft) ++ (lc :: lt)) := by
    apply ne_of_space_mem
    · simp
    · intro hmem
      rcases List.mem_append.mp hmem with hm | hm
      · exact (hF.2 ' ' hm).2.1 rfl
      · exact (hL.2 ' ' hm).2.1 rfl
  unfold add_player
  rw [if_neg (by simp)]
  rw [normalize_pair _ _ hF hL, extract_components_pair _ _ hF hL hfne1 hlne1]
  simp only [dpush, dmem, dget?, dset, dgetD, List.foldl_cons, List.foldl_nil,
    scan_initial, hfilter, hNNn, hfl, hlf, hf1, hl1, hfne1, hlne1]
  simp [hfl, hlf, hf1, hl1, hfne1, hlne1]


lemma find_single_exact (f l : PyStr) (pid : Int) (hF : WFpart f) (hL : WFpart l)
    (hf3 : 3 ≤ f.length) (hl3 : 3 ≤ l.length) (hfl : f ≠ l) :
    find_player_id (add_player emptyMatcher pid (f ++ ' ' :: l)) (f ++ ' ' :: l) =
      some pid := by
  rw [add_player_single f l pid hF hL hf3 hl3 hfl]
  unfold find_player_id
  rw [if_neg (by
    cases f with
    | nil => exact absurd rfl hF.1
    | cons c t => simp)]
  rw [normalize_pair f l hF hL]
  simp [dget?]


lemma normalize_last_initial (a : PyStr) (d : Char) (hA : WFpart a)
    (hdl : Char.toLower d = d) (hds : d ≠ ' ') (hdd : d ≠ '.') :
    normalize (a ++ [' ', d, '.']) = a ++ [' ', d] := by
  have hclean : clean (a ++ [' ', d, '.']) = a ++ [' ', d] := by
    rw [clean_append, clean_WF a hA, clean_sp_char_dot d hdl hdd]
  unfold Tennis.normalize
  rw [hclean, show a ++ [' ', d] = a ++ ' ' :: [d] from rfl,
    wsplit_token a (fun c hc => (hA.2 c hc).2.1) hA.1 [d],
    wsplit_single [d] (by simpa using hds) (by simp),
    joinParts_pair]


lemma find_single_last_initial (f l : PyStr) (pid : Int) (hF : WFpart f) (hL : WFpart l)
    (hf3 : 3 ≤ f.length) (hl3 : 3 ≤ l.length) (hfl : f ≠ l) :
    find_player_id (add_player emptyMatcher pid (f ++ ' ' :: l))
      (l ++ [' ', f.headD ' ', '.']) = some pid := by
  rw [add_player_single f l pid hF hL hf3 hl3 hfl]
  obtain ⟨fc, ft, rfl⟩ : ∃ c t, f = c :: t := by
    cases f with
    | nil => exact absurd rfl hF.1
    | cons c t => exact ⟨c, t, rfl⟩
  obtain ⟨lc, lt, rfl⟩ : ∃ c t, l = c :: t := by
    cases l with
    | nil => exact absurd rfl hL.1
    | cons c t => exact ⟨c, t, rfl⟩
  have hfc := hF.2 fc (List.mem_cons_self fc ft)
  have hfnos : ∀ c ∈ fc :: ft, c ≠ ' ' := fun c hc => (hF.2 c hc).2.1
  have hlnos : ∀ c ∈ lc :: lt, c ≠ ' ' := fun c hc => (hL.2 c hc).2.1
  have hlne1 : ¬((lc :: lt).length = 1) := by
    simp only [List.length_cons] at hl3 ⊢
    omega
  have hl3n : ¬((lc :: lt).length < 3) := by omega
  -- stage: the query and its normal form
  have hnorm := normalize_last_initial (lc :: lt) fc hL hfc.1 hfc.2.1 hfc.2.2
  have hcomps := extract_components_last_initial (lc :: lt) fc hL hlne1
    hfc.1 hfc.2.1 hfc.2.2
  -- strategy-1 lookups fail
  have hk1 : ¬((fc :: ft) ++ ' ' :: (lc :: lt) = (lc :: lt) ++ [' ', fc]) := by
    intro h
    rw [show (lc :: lt) ++ [' ', fc] = (lc :: lt) ++ ' ' :: [fc] from rfl] at h
    obtain ⟨h1, -⟩ := append_space_inj (fc :: ft) hfnos (lc :: lt) hlnos _ _ h
    exact hfl h1
  have hk2 : ¬((fc :: ft) ++ (lc :: lt) = (lc :: lt) ++ [' ', fc]) := by
    intro h
    have : ' ' ∈ (fc :: ft) ++ (lc :: lt) := by
      rw [h]
      simp
    rcases List.mem_append.mp this with hm | hm
    · exact (hF.2 ' ' hm).2.1 rfl
    · exact (hL.2 ' ' hm).2.1 rfl
  have hfilterq : ((lc :: lt) ++ [' ', fc]).filter (fun c => c ≠ ' ') =
      (lc :: lt) ++ [fc] := by
    rw [show (lc :: lt) ++ [' ', fc] = (lc :: lt) ++ ' ' :: [fc] from rfl,
      filter_space_append (lc :: lt) [fc] hlnos (by simpa using hfc.2.1)]
  have hk3 : ¬((fc :: ft) ++ ' ' :: (lc :: lt) = (lc :: lt) ++ [fc]) := by
    apply ne_of_space_mem
    · simp
    · intro hmem
      rcases List.mem_append.mp hmem with hm | hm
      · exact (hL.2 ' ' hm).2.1 rfl
      · simp at hm
        exact hfc.2.1 hm.symm
  have hk4 : ¬((fc :: ft) ++ (lc :: lt) = (lc :: lt) ++ [fc]) := by
    intro h
    have := congrArg List.length h
    simp only [List.length_append, List.length_cons, List.length_nil] at this hf3
    omega
  have h1lt : 1 < (lc :: lt).length := by
    simp only [List.length_cons] at hl3 ⊢
    omega
  unfold find_player_id
  rw [if_neg (by simp)]
  simp only [List.headD_cons, hnorm, hcomps]
  simp only [dget?, if_neg hk1, if_neg hk2, hfilterq, if_neg hk3, if_neg hk4]
  have hltne : lt ≠ [] := by
    intro h
    rw [h] at hlne1
    exact hlne1 rfl
  have hfiltp : List.filter (fun p => decide (1 < List.length p)) [lc :: lt, [fc]] =
      [lc :: lt] := by
    simp only [List.filter_cons, List.filter_nil, decide_eq_true_eq]
    rw [if_pos h1lt, if_neg (by simp)]
  have h3 : ¬(lt.length + 1 < 3) := by
    simp only [List.length_cons] at hl3
    omega
  simp [sortByLenDesc, insertLen, first_single_part, minByLen, strat2, initial_matches,
    dget?, hlne1, hl3n, h1lt, hltne, hfiltp, h3]


lemma find_single_last_first (f l : PyStr) (pid : Int) (hF : WFpart f) (hL : WFpart l)
    (hf3 : 3 ≤ f.length) (hl3 : 3 ≤ l.length) (hfl : f ≠ l)
    (hcomm : f ++ l ≠ l ++ f) :
    find_player_id (add_player emptyMatcher pid (f ++ ' ' :: l)) (l ++ ' ' :: f) =
      some pid := by
  rw [add_player_single f l pid hF hL hf3 hl3 hfl]
  obtain ⟨fc, ft, rfl⟩ : ∃ c t, f = c :: t := by
    cases f with
    | nil => exact absurd rfl hF.1
    | cons c t => exact ⟨c, t, rfl⟩
  obtain ⟨lc, lt, rfl⟩ : ∃ c t, l = c :: t := by
    cases l with
    | nil => exact absurd rfl hL.1
    | cons c t => exact ⟨c, t, rfl⟩
  have hfnos : ∀ c ∈ fc :: ft, c ≠ ' ' := fun c hc => (hF.2 c hc).2.1
  have hlnos : ∀ c ∈ lc :: lt, c ≠ ' ' := fun c hc => (hL.2 c hc).2.1
  have hfne1 : ¬((fc :: ft).length = 1) := by
    simp only [List.length_cons] at hf3 ⊢
    omega
  have hlne1 : ¬((lc :: lt).length = 1) := by
    simp only [List.length_cons] at hl3 ⊢
    omega
  have hf3n : ¬((fc :: ft).length < 3) := by omega
  have hl3n : ¬((lc :: lt).length < 3) := by omega
  have h3f : ¬(ft.length + 1 < 3) := by
    simp only [List.length_cons] at hf3
    omega
  have h3l : ¬(lt.length + 1 < 3) := by
    simp only [List.length_cons] at hl3
    omega
  have hlf : lc :: lt ≠ fc :: ft := Ne.symm hfl
  have hnorm := normalize_pair (lc :: lt) (fc :: ft) hL hF
  have hcomps := extract_components_pair (lc :: lt) (fc :: ft) hL hF hlne1 hfne1
  have hq1 : ¬((fc :: ft) ++ ' ' :: (lc :: lt) = (lc :: lt) ++ ' ' :: (fc :: ft)) := by
    intro h
    obtain ⟨h1, -⟩ := append_space_inj (fc :: ft) hfnos (lc :: lt) hlnos _ _ h
    exact hfl h1
  have hq2 : ¬((fc :: ft) ++ (lc :: lt) = (lc :: lt) ++ ' ' :: (fc :: ft)) := by
    intro h
    have hsp : ' ' ∈ (fc :: ft) ++ (lc :: lt) := by
      rw [h]
      simp
    rcases List.mem_append.mp hsp with hm | hm
    · exact (hF.2 ' ' hm).2.1 rfl
    · exact (hL.2 ' ' hm).2.1 rfl
  have hfiltq := filter_space_append (lc :: lt) (fc :: ft) hlnos hfnos
  have hq3 : ¬((fc :: ft) ++ ' ' :: (lc :: lt) = (lc :: lt) ++ (fc :: ft)) := by
    apply ne_of_space_mem
    · simp
    · intro hmem
      rcases List.mem_append.mp hmem with hm | hm
      · exact (hL.2 ' ' hm).2.1 rfl
      · exact (hF.2 ' ' hm).2.1 rfl
  have hq4 : ¬((fc :: ft) ++ (lc :: lt) = (lc :: lt) ++ (fc :: ft)) := hcomm
  have h1ltl : 1 < (lc :: lt).length := by
    simp only [List.length_cons] at hl3 ⊢
    omega
  have h1ltf : 1 < (fc :: ft).length := by
    simp only [List.length_cons] at hf3 ⊢
    omega
  have hfiltp : List.filter (fun p => decide (1 < List.length p)) [lc :: lt, fc :: ft] =
      [lc :: lt, fc :: ft] := by
    simp only [List.filter_cons, List.filter_nil, decide_eq_true_eq]
    rw [if_pos h1ltl, if_pos h1ltf]
  unfold find_player_id
  rw [if_neg (by simp)]
  simp only [hnorm, hcomps]
  simp only [dget?, if_neg hq1, if_neg hq2, hfiltq, if_neg hq3, if_neg hq4]
  have hltne : lt ≠ [] := by
    intro h
    rw [h] at hlne1
    exact hlne1 rfl
  have hftne : ft ≠ [] := by
    intro h
    rw [h] at hfne1
    exact hfne1 rfl
  by_cases hord : ft.length ≤ lt.length
  · by_cases hstrict : ft.length < lt.length
    · simp [sortByLenDesc, insertLen, hord, first_single_part, hltne, hftne,
        minByLen, hstrict, strat2, initial_matches, dget?, hfiltp, h3l, h3f, hlf]
    · by_cases hcc : fc = lc
      · subst hcc
        simp [sortByLenDesc, insertLen, hord, first_single_part, hltne, hftne,
          minByLen, hstrict, strat2, initial_matches, dget?, hfiltp, h3l, h3f, hlf]
      · simp [sortByLenDesc, insertLen, hord, first_single_part, hltne, hftne,
          minByLen, hstrict, strat2, initial_matches, dget?, hfiltp, h3l, h3f, hlf, hcc]
  · have hgt : lt.length < ft.length := by omega
    simp [sortByLenDesc, insertLen, hord, first_single_part, hltne, hftne,
      minByLen, hgt, strat2, initial_matches, dget?, hfiltp, h3l, h3f, hlf]


/-- C1: in an index holding one player added under the canonical name
composed of a well-formed first part and last part (each of length at
least 3, with concatenations in the two orders distinct), `find_player_id`
resolves all three documented renderings -- "First Last", "Last First" and
"Last F." -- to that player's id. -/
theorem c1_documented_formats_resolve (f l : PyStr) (pid : Int) (hF : WFpart f) (hL : WFpart l)
    (hf3 : 3 ≤ f.length) (hl3 : 3 ≤ l.length) (hcomm : f ++ l ≠ l ++ f) :
    (find_player_id (add_player emptyMatcher pid (f ++ ' ' :: l))
        (f ++ ' ' :: l) = some pid) ∧
    (find_player_id (add_player emptyMatcher pid (f ++ ' ' :: l))
        (l ++ ' ' :: f) = some pid) ∧
    (find_player_id (add_player emptyMatcher pid (f ++ ' ' :: l))
        (l ++ [' ', f.headD ' ', '.']) = some pid) := by
  have hfl : f ≠ l := fun h => hcomm (by rw [h])
  exact ⟨find_single_exact f l pid hF hL hf3 hl3 hfl,
    find_single_last_first f l pid hF hL hf3 hl3 hfl hcomm,
    find_single_last_initial f l pid hF hL hf3 hl3 hfl⟩


/-- With two players sharing last name and first initial ("anna kott" id 1,
then "aida kott" id 2), the rendering "kott a." of the known player with
id 2 resolves to id 1: resolution is not exact on the documented formats
for every known player. -/
theorem c1_counterexample :
    dget? kottIdx.players 2 = some (pys "aida kott") ∧
    find_player_id kottIdx (pys "kott a.") = some 1 ∧
    find_player_id kottIdx (pys "kott a.") ≠ some 2 := by decide


/-- Witness: the C1 theorem applied to first part "carlos", last part
"alcaraz", id 3, on the rendering "alcaraz carlos". -/
theorem c1_witness :
    WFpart (pys "carlos") ∧ WFpart (pys "alcaraz") ∧
    find_player_id (add_player emptyMatcher 3 (pys "carlos" ++ ' ' :: pys "alcaraz"))
      (pys "alcaraz" ++ ' ' :: pys "carlos") = some 3 :=
  ⟨by decide, by decide,
    (c1_documented_formats_resolve (pys "carlos") (pys "alcaraz") 3 (by decide) (by decide)
      (by decide) (by decide) (by decide)).2.1⟩


end Tennis
